import Mathlib

/-!
Verification of the `next-dev-eager` route warm-up tool (`main.go`).

The development shallowly embeds the program: the string primitives from Go's
`strings` package are modelled over the character list of a `String`, the
route resolver `findStaticRoutes` is modelled as a fold over the sequence of
entries produced by `filepath.WalkDir`, and the warm-up loop of `main` is
modelled as a function from an HTTP outcome oracle to the list of observable
events (requests, status lines, error lines, sleeps).
-/

/-! ## String primitives (Go `strings` package) -/

/-- Model of Go `strings.HasPrefix s pre`: `pre` is a prefix of `s`. -/
def strStartsWith (s pre : String) : Bool :=
  pre.data.isPrefixOf s.data

/-- Model of Go `strings.HasSuffix s suf`: `suf` is a suffix of `s`. -/
def strEndsWith (s suf : String) : Bool :=
  suf.data.isSuffixOf s.data

/-- Splitting a character list at every occurrence of the slash character,
mirroring Go `strings.Split(s, "/")`: the empty input yields one empty piece,
and every slash separates two (possibly empty) pieces. -/
def splitSegsChars : List Char → List (List Char)
  | [] => [[]]
  | c :: rest =>
    if c = '/' then [] :: splitSegsChars rest
    else
      match splitSegsChars rest with
      | [] => [[c]]
      | seg :: segs => (c :: seg) :: segs

/-- Model of Go `strings.Split(s, "/")`. -/
def splitOnSlash (s : String) : List String :=
  (splitSegsChars s.data).map String.mk

/-- Model of Go `strings.Join(elems, "/")`. -/
def joinSlash : List String → String
  | [] => ""
  | [s] => s
  | s :: rest => s ++ "/" ++ joinSlash rest

/-! ## Route resolver (`findStaticRoutes`, main.go lines 97-193) -/

/-- One entry handed to the `filepath.WalkDir` callback: `relDir` is the
path of the entry's containing directory relative to the walk root after
`filepath.Rel` and `filepath.ToSlash` (`"."` for the root itself), `fileName`
is the entry's base name (`d.Name()`), and `isDir` is `d.IsDir()`. -/
structure WalkEntry where
  relDir : String
  fileName : String
  isDir : Bool
deriving DecidableEq, Repr

/-- The page-file test of main.go lines 107-110: not a directory, base name
starts with `page.` and ends with one of the four recognized extensions. -/
def isPageFile (e : WalkEntry) : Bool :=
  !e.isDir && strStartsWith e.fileName "page." &&
    (strEndsWith e.fileName ".js" || strEndsWith e.fileName ".jsx" ||
     strEndsWith e.fileName ".ts" || strEndsWith e.fileName ".tsx")

/-- The candidate route string of main.go lines 127-134: the root directory
maps to `/`, every other relative directory gets a leading `/`. -/
def entryRoute (e : WalkEntry) : String :=
  if e.relDir == "." then "/" else "/" ++ e.relDir

/-- The segment list of main.go line 137: `strings.Split(route, "/")`. -/
def entrySegments (e : WalkEntry) : List String :=
  splitOnSlash (entryRoute e)

/-- The route-group test of main.go line 150: parenthesized and not starting
with `(...`. -/
def isGroupSegment (s : String) : Bool :=
  strStartsWith s "(" && strEndsWith s ")" && !(strStartsWith s "(...")

/-- The intercepting-route test of main.go line 154. -/
def isInterceptorMarker (s : String) : Bool :=
  s == "(.)" || s == "(..)" || s == "(...)"

/-- The segment loop of main.go lines 139-169: returns `none` when the whole
path is disqualified (private, interceptor, parallel slot, or dynamic
segment), otherwise the surviving final segments in order. -/
def processSegments : List String → Option (List String)
  | [] => some []
  | segment :: rest =>
    if segment == "" then processSegments rest
    else if strStartsWith segment "_" then none
    else if isGroupSegment segment then processSegments rest
    else if isInterceptorMarker segment then none
    else if strStartsWith segment "@" then none
    else if strStartsWith segment "[" && strEndsWith segment "]" then none
    else (processSegments rest).map (fun out => segment :: out)

/-- The route reconstruction of main.go lines 172-176. -/
def finalizeRoute (finalSegments : List String) : String :=
  let finalRoute := "/" ++ joinSlash finalSegments
  if finalRoute == "//" then "/" else finalRoute

/-- The route contributed by one walk entry, or `none` when the entry is not
a page file or its path is disqualified (main.go lines 106-179). -/
def routeForEntry (e : WalkEntry) : Option String :=
  if isPageFile e then
    (processSegments (entrySegments e)).map finalizeRoute
  else none

/-- One item of the walk sequence: either an entry or a traversal error
passed to the callback (main.go lines 100-104). -/
abbrev WalkItem := Except String WalkEntry

/-- The accumulation of `routeSet` over the walk sequence: a traversal error
is returned immediately and aborts the walk; each page file's route is
inserted into the set (modelled as a duplicate-free list). -/
def collectRoutes : List WalkItem → List String → Except String (List String)
  | [], acc => Except.ok acc
  | Except.error msg :: _, _ => Except.error msg
  | Except.ok e :: rest, acc =>
    match routeForEntry e with
    | none => collectRoutes rest acc
    | some r => collectRoutes rest (if acc.contains r then acc else acc ++ [r])

/-- Model of `findStaticRoutes` (main.go lines 97-193) as a function of the
walk sequence. -/
def findStaticRoutes (items : List WalkItem) : Except String (List String) :=
  collectRoutes items []

/-! ## Warm-up driver (`main`, main.go lines 21-74) -/

/-- The fixed base URL (main.go line 16). -/
def baseURL : String := "http://localhost:3000"

/-- The sort of main.go lines 40-42: ascending route string length. -/
def sortRoutes (routes : List String) : List String :=
  routes.mergeSort (fun a b => a.length ≤ b.length)

/-- Observable events of the warm-up loop: an issued GET request, a printed
status line, a printed error line, and a one-second sleep. -/
inductive WarmupEvent where
  | request (url : String)
  | success (status : Nat)
  | failure (msg : String)
  | sleep
deriving DecidableEq, Repr

/-- One iteration of the warm-up loop (main.go lines 51-71), given the
outcome oracle for `client.Get`: on error, print the error and sleep; on
success, print the status and sleep; either way the loop continues. -/
def warmupRoute (outcome : String → Except String Nat) (route : String) :
    List WarmupEvent :=
  let url := baseURL ++ route
  match outcome url with
  | Except.error msg => [WarmupEvent.request url, WarmupEvent.failure msg, WarmupEvent.sleep]
  | Except.ok status => [WarmupEvent.request url, WarmupEvent.success status, WarmupEvent.sleep]

/-- The whole warm-up loop over a route list. -/
def warmupAll (outcome : String → Except String Nat) (routes : List String) :
    List WarmupEvent :=
  routes.flatMap (warmupRoute outcome)

/-- The URLs of the GET requests issued, in order. -/
def requestedUrls (events : List WarmupEvent) : List String :=
  events.filterMap fun ev =>
    match ev with
    | WarmupEvent.request url => some url
    | _ => none

/-- The number of sleeps performed. -/
def sleepCount (events : List WarmupEvent) : Nat :=
  (events.filter fun ev =>
    match ev with
    | WarmupEvent.sleep => true
    | _ => false).length

/-- The observable outcome of a run of `main` after the app directory was
found (main.go lines 28-74). -/
inductive RunResult where
  | fatal (msg : String)
  | noRoutes
  | completed (events : List WarmupEvent)
deriving DecidableEq, Repr

/-- Model of `main` after `findAppDirectory`: a discovery error is fatal and
nothing else happens; an empty route list ends the run with an informational
message; otherwise the sorted routes are warmed up. -/
def runMain (outcome : String → Except String Nat) (items : List WalkItem) :
    RunResult :=
  match findStaticRoutes items with
  | Except.error msg => RunResult.fatal msg
  | Except.ok routes =>
    if routes.isEmpty then RunResult.noRoutes
    else RunResult.completed (warmupAll outcome (sortRoutes routes))

/-! ## App directory lookup (`findAppDirectory`, main.go lines 79-90) -/

/-- The candidate locations of main.go line 80. -/
def possibleAppDirs : List String := ["app", "src/app"]

/-- Model of `os.Stat(dir); err == nil` over a directory listing of
`(name, isDir)` pairs: the stat succeeds when an entry with that name
exists, whether or not it is a directory. -/
def statSucceeds (fsEntries : List (String × Bool)) (name : String) : Bool :=
  fsEntries.any fun ent => ent.1 == name

/-- Model of `findAppDirectory`: the first candidate whose stat succeeds,
`none` when neither exists (the Go code then calls `log.Fatalf`). -/
def findAppDirectory (fsEntries : List (String × Bool)) : Option String :=
  possibleAppDirs.find? (statSucceeds fsEntries)

/-- The keep-predicate that the segment loop realizes on paths it does not
disqualify: a surviving segment is non-empty and not a route group. -/
def keepSeg (s : String) : Bool :=
  !(s == "") && !(isGroupSegment s)

/-! ## Helper lemmas -/

/-- A string with a given prefix contains that prefix's characters. -/
theorem data_of_strStartsWith (s pre : String) (h : strStartsWith s pre = true) :
    ∃ t, s.data = pre.data ++ t := by
  unfold strStartsWith at h
  obtain ⟨t, ht⟩ := List.isPrefixOf_iff_prefix.mp h
  exact ⟨t, ht.symm⟩

/-- A string with a non-empty prefix is not the empty string. -/
theorem beq_empty_eq_false_of_strStartsWith (s pre : String) (hpre : pre.data ≠ [])
    (h : strStartsWith s pre = true) : (s == "") = false := by
  obtain ⟨t, ht⟩ := data_of_strStartsWith s pre h
  refine beq_eq_false_iff_ne.mpr ?_
  intro hcontra
  rw [hcontra] at ht
  exact hpre (List.append_eq_nil.mp ht.symm).1

/-- On a path it does not disqualify, the segment loop keeps exactly the
non-empty, non-group segments, in order. -/
theorem processSegments_eq_filter :
    ∀ (segs out : List String),
      processSegments segs = some out → out = segs.filter keepSeg
  | [], out, h => by
    simp only [processSegments, Option.some.injEq] at h
    simp [← h]
  | seg :: rest, out, h => by
    rw [processSegments] at h
    by_cases h0 : (seg == "") = true
    · rw [if_pos h0] at h
      have ih := processSegments_eq_filter rest out h
      have hk : keepSeg seg = false := by simp [keepSeg, h0]
      simp [List.filter_cons, hk, ih]
    · rw [if_neg h0] at h
      by_cases h1 : strStartsWith seg "_" = true
      · rw [if_pos h1] at h; exact absurd h (by simp)
      · rw [if_neg h1] at h
        by_cases h2 : isGroupSegment seg = true
        · rw [if_pos h2] at h
          have ih := processSegments_eq_filter rest out h
          have hk : keepSeg seg = false := by simp [keepSeg, h2]
          simp [List.filter_cons, hk, ih]
        · rw [if_neg h2] at h
          by_cases h3 : isInterceptorMarker seg = true
          · rw [if_pos h3] at h; exact absurd h (by simp)
          · rw [if_neg h3] at h
            by_cases h4 : strStartsWith seg "@" = true
            · rw [if_pos h4] at h; exact absurd h (by simp)
            · rw [if_neg h4] at h
              by_cases h5 : (strStartsWith seg "[" && strEndsWith seg "]") = true
              · rw [if_pos h5] at h; exact absurd h (by simp)
              · rw [if_neg h5] at h
                cases hrest : processSegments rest with
                | none => rw [hrest] at h; exact absurd h (by simp)
                | some out' =>
                  rw [hrest] at h
                  simp only [Option.map_some', Option.some.injEq] at h
                  have ih := processSegments_eq_filter rest out' hrest
                  have hk : keepSeg seg = true := by
                    simp [keepSeg, Bool.not_eq_true] at h0 h2 ⊢
                    exact ⟨h0, h2⟩
                  simp [← h, List.filter_cons, hk, ih]

/-- A path containing a segment that starts with an underscore is
disqualified by the segment loop, whatever its other segments are. -/
theorem processSegments_none_of_private :
    ∀ (segs : List String) (s : String),
      s ∈ segs → strStartsWith s "_" = true → processSegments segs = none
  | seg :: rest, s, hmem, hpre => by
    rw [processSegments]
    rcases List.mem_cons.mp hmem with heq | htail
    · subst heq
      have h0 : (s == "") = false :=
        beq_empty_eq_false_of_strStartsWith s "_" (by decide) hpre
      rw [h0]
      simp [hpre]
    · have ih := processSegments_none_of_private rest s htail hpre
      by_cases h0 : (seg == "") = true
      · rw [if_pos h0]; exact ih
      · rw [if_neg h0]
        by_cases h1 : strStartsWith seg "_" = true
        · rw [if_pos h1]
        · rw [if_neg h1]
          by_cases h2 : isGroupSegment seg = true
          · rw [if_pos h2]; exact ih
          · rw [if_neg h2]
            by_cases h3 : isInterceptorMarker seg = true
            · rw [if_pos h3]
            · rw [if_neg h3]
              by_cases h4 : strStartsWith seg "@" = true
              · rw [if_pos h4]
              · rw [if_neg h4]
                by_cases h5 : (strStartsWith seg "[" && strEndsWith seg "]") = true
                · rw [if_pos h5]
                · rw [if_neg h5, ih]
                  rfl

/-- Splitting never produces an empty list of pieces. -/
theorem splitSegsChars_ne_nil : ∀ cs : List Char, splitSegsChars cs ≠ []
  | [] => by simp [splitSegsChars]
  | c :: rest => by
    rw [splitSegsChars]
    by_cases hc : c = '/'
    · simp [hc]
    · rw [if_neg hc]
      cases hrest : splitSegsChars rest with
      | nil => simp
      | cons seg segs => simp

/-- No piece produced by splitting at slashes contains a slash. -/
theorem not_slash_mem_splitSegsChars :
    ∀ (cs : List Char) (p : List Char), p ∈ splitSegsChars cs → '/' ∉ p
  | [], p, hp => by
    simp [splitSegsChars] at hp
    simp [hp]
  | c :: rest, p, hp => by
    rw [splitSegsChars] at hp
    by_cases hc : c = '/'
    · rw [if_pos hc] at hp
      rcases List.mem_cons.mp hp with heq | htail
      · simp [heq]
      · exact not_slash_mem_splitSegsChars rest p htail
    · rw [if_neg hc] at hp
      cases hrest : splitSegsChars rest with
      | nil => exact absurd hrest (splitSegsChars_ne_nil rest)
      | cons seg segs =>
        rw [hrest] at hp
        rcases List.mem_cons.mp hp with heq | htail
        · subst heq
          intro hmem
          rcases List.mem_cons.mp hmem with heq' | htail'
          · exact hc heq'.symm
          · exact not_slash_mem_splitSegsChars rest seg
              (hrest ▸ List.mem_cons_self seg segs) htail'
        · exact not_slash_mem_splitSegsChars rest p
            (hrest ▸ List.mem_cons_of_mem seg htail)

/-- No piece of `splitOnSlash` contains a slash character. -/
theorem no_slash_of_mem_splitOnSlash (s p : String) (hp : p ∈ splitOnSlash s) :
    '/' ∉ p.data := by
  unfold splitOnSlash at hp
  obtain ⟨q, hq, hqp⟩ := List.mem_map.mp hp
  have : p.data = q := by rw [← hqp]
  rw [this]
  exact not_slash_mem_splitSegsChars s.data q hq

/-- The last element of a list is a member of it. -/
theorem mem_of_getLast?_eq :
    ∀ {α : Type} (l : List α) (a : α), l.getLast? = some a → a ∈ l
  | _, [], a, h => by simp at h
  | _, [b], a, h => by
    simp [List.getLast?] at h
    simp [h]
  | _, b :: c :: rest, a, h => by
    rw [List.getLast?_cons_cons] at h
    exact List.mem_cons_of_mem b (mem_of_getLast?_eq (c :: rest) a h)

/-- Joining non-empty slash-free strings with slashes yields a non-empty
string that does not end in a slash. -/
theorem joinSlash_getLast?_ne_slash :
    ∀ out : List String, out ≠ [] →
      (∀ s ∈ out, s.data ≠ [] ∧ '/' ∉ s.data) →
      (joinSlash out).data ≠ [] ∧ (joinSlash out).data.getLast? ≠ some '/'
  | [], hne, _ => absurd rfl hne
  | [s], _, hall => by
    have hs := hall s (List.mem_cons_self s [])
    refine ⟨by simpa [joinSlash] using hs.1, ?_⟩
    intro hlast
    exact hs.2 (mem_of_getLast?_eq s.data '/' (by simpa [joinSlash] using hlast))
  | s :: t :: rest, _, hall => by
    have ih := joinSlash_getLast?_ne_slash (t :: rest) (by simp)
      (fun u hu => hall u (List.mem_cons_of_mem s hu))
    have hdata : (joinSlash (s :: t :: rest)).data =
        (s.data ++ ['/']) ++ (joinSlash (t :: rest)).data := by
      show ((s ++ "/") ++ joinSlash (t :: rest)).data = _
      rw [String.data_append, String.data_append]
    have hne2 : (joinSlash (t :: rest)).data.getLast? ≠ none := by
      intro hnone
      exact ih.1 (List.getLast?_eq_none_iff.mp hnone)
    obtain ⟨x, hx⟩ := Option.ne_none_iff_exists.mp hne2
    have h2 := ih.2
    rw [← hx] at h2
    constructor
    · rw [hdata]
      simp [ih.1]
    · rw [hdata, List.getLast?_append, ← hx]
      simpa using h2

/-- Unfolding of a successful `routeForEntry`: the entry is a page file, its
segments survive the loop as exactly the non-empty non-group segments, and
the route is their reconstruction. -/
theorem routeForEntry_eq_some (e : WalkEntry) (r : String)
    (h : routeForEntry e = some r) :
    isPageFile e = true ∧
    processSegments (entrySegments e) =
      some ((entrySegments e).filter keepSeg) ∧
    r = finalizeRoute ((entrySegments e).filter keepSeg) := by
  unfold routeForEntry at h
  by_cases hp : isPageFile e = true
  · rw [if_pos hp] at h
    cases hps : processSegments (entrySegments e) with
    | none => rw [hps] at h; exact absurd h (by simp)
    | some out =>
      have hfil := processSegments_eq_filter _ _ hps
      rw [hps] at h
      simp only [Option.map_some', Option.some.injEq] at h
      refine ⟨hp, ?_, ?_⟩
      · rw [hfil]
      · rw [← h, hfil]
  · rw [if_neg hp] at h
    exact absurd h (by simp)

/-- Every surviving segment of an entry is a non-empty string containing no
slash. -/
theorem kept_segment_shape (e : WalkEntry) (s : String)
    (hs : s ∈ (entrySegments e).filter keepSeg) :
    s.data ≠ [] ∧ '/' ∉ s.data := by
  obtain ⟨hmem, hkeep⟩ := List.mem_filter.mp hs
  constructor
  · intro hnil
    have hempty : s = "" := String.ext hnil
    rw [hempty] at hkeep
    simp [keepSeg] at hkeep
  · exact no_slash_of_mem_splitOnSlash (entryRoute e) s hmem

/-- Every route produced by an entry is canonical: it starts with a slash
and, unless it is the root route, does not end with one. -/
theorem routeForEntry_canonical (e : WalkEntry) (r : String)
    (h : routeForEntry e = some r) :
    strStartsWith r "/" = true ∧ (r ≠ "/" → strEndsWith r "/" = false) := by
  obtain ⟨-, -, hroute⟩ := routeForEntry_eq_some e r h
  cases hout : (entrySegments e).filter keepSeg with
  | nil =>
    rw [hout] at hroute
    have : r = "/" := by rw [hroute]; rfl
    rw [this]
    exact ⟨by decide, fun hne => absurd rfl hne⟩
  | cons s0 out' =>
    have hshape : ∀ s ∈ s0 :: out', s.data ≠ [] ∧ '/' ∉ s.data := by
      intro s hs
      exact kept_segment_shape e s (hout ▸ hs)
    have hjoin := joinSlash_getLast?_ne_slash (s0 :: out') (by simp) hshape
    rw [hout] at hroute
    have hdata : ("/" ++ joinSlash (s0 :: out')).data =
        '/' :: (joinSlash (s0 :: out')).data := by
      rw [String.data_append]; rfl
    have hne2 : ("/" ++ joinSlash (s0 :: out')) ≠ "//" := by
      intro hcontra
      have := congrArg String.data hcontra
      rw [hdata] at this
      have hJ : (joinSlash (s0 :: out')).data = ['/'] := by
        simpa using this
      rw [hJ] at hjoin
      simp at hjoin
    have hr : r = "/" ++ joinSlash (s0 :: out') := by
      rw [hroute]
      unfold finalizeRoute
      rw [if_neg (by simpa using hne2)]
    constructor
    · rw [hr]
      unfold strStartsWith
      rw [hdata]
      simp [List.isPrefixOf]
    · intro hne3
      unfold strEndsWith
      refine Bool.eq_false_iff.mpr ?_
      intro hsuf
      obtain ⟨t, ht⟩ := List.isSuffixOf_iff_suffix.mp hsuf
      have hlast : r.data.getLast? = some '/' := by
        rw [← ht]
        exact List.getLast?_concat t
      rw [hr, hdata] at hlast
      obtain ⟨x, hx⟩ := Option.ne_none_iff_exists.mp
        (show (joinSlash (s0 :: out')).data.getLast? ≠ none from
          fun hnone => hjoin.1 (List.getLast?_eq_none_iff.mp hnone))
      rw [show ('/' :: (joinSlash (s0 :: out')).data) =
          ['/'] ++ (joinSlash (s0 :: out')).data from rfl,
        List.getLast?_append, ← hx] at hlast
      simp at hlast
      rw [← hx] at hjoin
      exact hjoin.2 (by rw [hlast])

/-- Every route in the accumulated set either was already accumulated or is
the route of some walk entry. -/
theorem collectRoutes_mem :
    ∀ (items : List WalkItem) (acc routes : List String),
      collectRoutes items acc = Except.ok routes →
      ∀ r ∈ routes, r ∈ acc ∨ ∃ e : WalkEntry, routeForEntry e = some r
  | [], acc, routes, h, r, hr => by
    rw [collectRoutes] at h
    simp only [Except.ok.injEq] at h
    exact Or.inl (h ▸ hr)
  | Except.error msg :: rest, acc, routes, h, r, hr => by
    rw [collectRoutes] at h
    exact absurd h (by simp)
  | Except.ok e :: rest, acc, routes, h, r, hr => by
    rw [collectRoutes] at h
    cases hre : routeForEntry e with
    | none =>
      rw [hre] at h
      exact collectRoutes_mem rest acc routes h r hr
    | some r' =>
      rw [hre] at h
      have ih := collectRoutes_mem rest
        (if acc.contains r' then acc else acc ++ [r']) routes h r hr
      rcases ih with hacc | hentry
      · by_cases hc : acc.contains r' = true
        · rw [if_pos hc] at hacc
          exact Or.inl hacc
        · rw [if_neg hc] at hacc
          rcases List.mem_append.mp hacc with hl | hrj
          · exact Or.inl hl
          · right
            refine ⟨e, ?_⟩
            rw [hre]
            congr 1
            exact (List.mem_singleton.mp hrj).symm
      · exact Or.inr hentry

/-- An entry that yields no route leaves the whole collection unchanged,
wherever it appears in the walk sequence. -/
theorem collectRoutes_skip :
    ∀ (e : WalkEntry), routeForEntry e = none →
      ∀ (pre post : List WalkItem) (acc : List String),
        collectRoutes (pre ++ Except.ok e :: post) acc =
          collectRoutes (pre ++ post) acc
  | e, he, [], post, acc => by
    simp only [List.nil_append]
    rw [collectRoutes, he]
  | e, he, Except.error msg :: pre, post, acc => by
    simp only [List.cons_append]
    rw [collectRoutes, collectRoutes]
  | e, he, Except.ok e' :: pre, post, acc => by
    simp only [List.cons_append]
    rw [collectRoutes, collectRoutes]
    cases hre : routeForEntry e' with
    | none => exact collectRoutes_skip e he pre post acc
    | some r' => exact collectRoutes_skip e he pre post _

/-- A traversal error anywhere in the walk sequence makes the collection
return an error. -/
theorem collectRoutes_error :
    ∀ (pre : List WalkItem) (post : List WalkItem) (msg : String)
      (acc : List String),
      ∃ m, collectRoutes (pre ++ Except.error msg :: post) acc =
        Except.error m
  | [], post, msg, acc => ⟨msg, by simp only [List.nil_append]; rw [collectRoutes]⟩
  | Except.error m' :: pre, post, msg, acc =>
    ⟨m', by simp only [List.cons_append]; rw [collectRoutes]⟩
  | Except.ok e :: pre, post, msg, acc => by
    simp only [List.cons_append]
    rw [collectRoutes]
    cases hre : routeForEntry e with
    | none => exact collectRoutes_error pre post msg acc
    | some r' => exact collectRoutes_error pre post msg _

/-- The single GET request of one loop iteration. -/
theorem requestedUrls_warmupRoute (outcome : String → Except String Nat)
    (route : String) :
    requestedUrls (warmupRoute outcome route) = [baseURL ++ route] := by
  unfold warmupRoute requestedUrls
  cases h : outcome (baseURL ++ route) <;> simp [h]

/-- The warm-up loop requests exactly the given routes, in order, against
the fixed base URL, whatever the outcomes are. -/
theorem requestedUrls_warmupAll (outcome : String → Except String Nat) :
    ∀ routes : List String,
      requestedUrls (warmupAll outcome routes) =
        routes.map (fun r => baseURL ++ r)
  | [] => rfl
  | r :: rest => by
    have hsplit : warmupAll outcome (r :: rest) =
        warmupRoute outcome r ++ warmupAll outcome rest := by
      simp [warmupAll]
    rw [hsplit]
    unfold requestedUrls
    rw [List.filterMap_append]
    have h1 := requestedUrls_warmupRoute outcome r
    have h2 := requestedUrls_warmupAll outcome rest
    unfold requestedUrls at h1 h2
    rw [h1, h2, List.map_cons, List.singleton_append]

/-- Each loop iteration sleeps exactly once. -/
theorem sleepCount_warmupRoute (outcome : String → Except String Nat)
    (route : String) :
    sleepCount (warmupRoute outcome route) = 1 := by
  unfold warmupRoute sleepCount
  cases h : outcome (baseURL ++ route) <;> simp [h]

/-- The warm-up loop sleeps once per route, after every request. -/
theorem sleepCount_warmupAll (outcome : String → Except String Nat) :
    ∀ routes : List String,
      sleepCount (warmupAll outcome routes) = routes.length
  | [] => rfl
  | r :: rest => by
    have hsplit : warmupAll outcome (r :: rest) =
        warmupRoute outcome r ++ warmupAll outcome rest := by
      simp [warmupAll]
    rw [hsplit]
    unfold sleepCount
    rw [List.filter_append, List.length_append]
    have h1 := sleepCount_warmupRoute outcome r
    have h2 := sleepCount_warmupAll outcome rest
    unfold sleepCount at h1 h2
    rw [h1, h2, List.length_cons]
    omega

/-- The length-ascending sort is a permutation of its input. -/
theorem sortRoutes_perm (routes : List String) :
    (sortRoutes routes).Perm routes :=
  List.mergeSort_perm routes _

/-- The length-ascending sort is sorted by route string length. -/
theorem sortRoutes_sorted (routes : List String) :
    (sortRoutes routes).Sorted (fun a b => a.length ≤ b.length) := by
  have htrans : ∀ a b c : String,
      decide (a.length ≤ b.length) = true →
      decide (b.length ≤ c.length) = true →
      decide (a.length ≤ c.length) = true := by
    intro a b c hab hbc
    simp only [decide_eq_true_eq] at *
    omega
  have htotal : ∀ a b : String,
      (decide (a.length ≤ b.length) || decide (b.length ≤ a.length)) = true := by
    intro a b
    simp only [Bool.or_eq_true, decide_eq_true_eq]
    exact Nat.le_total a.length b.length
  have h : (routes.mergeSort fun a b : String =>
      decide (a.length ≤ b.length)).Pairwise
        (fun a b : String => decide (a.length ≤ b.length) = true) :=
    List.sorted_mergeSort htrans htotal routes
  exact h.imp (fun hab => by simpa using hab)

/-! ## Claim theorems -/

/-- C1: the claim says a segment that is exactly `(.)`, `(..)` or `(...)`
disqualifies the whole path. The code disagrees for `(.)` and `(..)`: the
route-group check of main.go line 150 runs first and only exempts segments
starting with `(...`, so `(.)` and `(..)` are dropped like route groups and
a route is still emitted; only `(...)` reaches the interceptor check and
disqualifies. The equality test for `(.)` and `(..)` on line 154 is
unreachable, contradicting its own comment. -/
theorem c1_interceptor_markers_emit_routes :
    routeForEntry ⟨"(.)", "page.tsx", false⟩ = some "/" ∧
    routeForEntry ⟨"feed/(..)", "page.tsx", false⟩ = some "/feed" ∧
    routeForEntry ⟨"(...)", "page.tsx", false⟩ = none ∧
    findStaticRoutes [Except.ok ⟨"(.)", "page.tsx", false⟩] =
      Except.ok ["/"] :=
  ⟨rfl, rfl, rfl, rfl⟩

/-- C2 counterexample: `(...x)` starts with `(`, ends with `)` and is none
of the three interceptor markers, yet it is not dropped: it appears
verbatim in the emitted route, because the group check exempts every
segment starting with `(...`, not only the three markers. -/
theorem c2_counterexample :
    strStartsWith "(...x)" "(" = true ∧
    strEndsWith "(...x)" ")" = true ∧
    isInterceptorMarker "(...x)" = false ∧
    routeForEntry ⟨"(...x)", "page.tsx", false⟩ = some "/(...x)" ∧
    findStaticRoutes [Except.ok ⟨"(...x)", "page.tsx", false⟩] =
      Except.ok ["/(...x)"] :=
  ⟨rfl, rfl, rfl, rfl, rfl⟩

/-- C2 as amended: any segment that starts with `(`, ends with `)` and does
not start with `(...` is dropped from the emitted route; the surviving
segments are exactly the non-empty, non-group segments in their original
order, and the route is reconstructed from them. -/
theorem c2_group_segments_dropped (e : WalkEntry) (r : String)
    (h : routeForEntry e = some r) :
    processSegments (entrySegments e) =
      some ((entrySegments e).filter keepSeg) ∧
    r = finalizeRoute ((entrySegments e).filter keepSeg) ∧
    ∀ s ∈ (entrySegments e).filter keepSeg, isGroupSegment s = false := by
  obtain ⟨-, hps, hr⟩ := routeForEntry_eq_some e r h
  refine ⟨hps, hr, ?_⟩
  intro s hs
  have hk := (List.mem_filter.mp hs).2
  unfold keepSeg at hk
  simp only [Bool.and_eq_true, Bool.not_eq_true'] at hk
  exact hk.2

/-- C2 witness: a route-group segment is dropped and the rest of the path
survives in order. -/
theorem c2_group_segments_dropped_witness :
    routeForEntry ⟨"(marketing)/about", "page.tsx", false⟩ = some "/about" ∧
    processSegments (entrySegments ⟨"(marketing)/about", "page.tsx", false⟩) =
      some ["about"] := by
  refine ⟨rfl, ?_⟩
  have h := (c2_group_segments_dropped
    ⟨"(marketing)/about", "page.tsx", false⟩ "/about" rfl).1
  rw [h]
  rfl

/-- C3: a tree with a page file under plain directories `a/b/c` yields
exactly `/a/b/c`, and adding `[id]/page.tsx` under `c` changes nothing:
only the dynamic child's own page file is skipped. -/
theorem c3_disqualification_is_per_file :
    findStaticRoutes
      [Except.ok ⟨".", "app", true⟩,
       Except.ok ⟨".", "a", true⟩,
       Except.ok ⟨"a", "b", true⟩,
       Except.ok ⟨"a/b", "c", true⟩,
       Except.ok ⟨"a/b/c", "page.tsx", false⟩] = Except.ok ["/a/b/c"] ∧
    findStaticRoutes
      [Except.ok ⟨".", "app", true⟩,
       Except.ok ⟨".", "a", true⟩,
       Except.ok ⟨"a", "b", true⟩,
       Except.ok ⟨"a/b", "c", true⟩,
       Except.ok ⟨"a/b/c", "page.tsx", false⟩,
       Except.ok ⟨"a/b/c", "[id]", true⟩,
       Except.ok ⟨"a/b/c/[id]", "page.tsx", false⟩] = Except.ok ["/a/b/c"] :=
  ⟨rfl, rfl⟩

/-- C4: a candidate path containing a segment that starts with `_` never
contributes a route, whatever the other segments are: the entry yields no
route and removing it from the walk changes nothing. -/
theorem c4_private_segment_disqualifies (e : WalkEntry) (s : String)
    (hmem : s ∈ entrySegments e) (hpre : strStartsWith s "_" = true) :
    routeForEntry e = none ∧
    ∀ pre post : List WalkItem,
      findStaticRoutes (pre ++ Except.ok e :: post) =
        findStaticRoutes (pre ++ post) := by
  have hnone : routeForEntry e = none := by
    unfold routeForEntry
    by_cases hp : isPageFile e = true
    · rw [if_pos hp,
        processSegments_none_of_private (entrySegments e) s hmem hpre]
      rfl
    · rw [if_neg hp]
  exact ⟨hnone, fun pre post => collectRoutes_skip e hnone pre post []⟩

/-- C4 witness at a concrete private path. -/
theorem c4_private_segment_disqualifies_witness :
    routeForEntry ⟨"a/_private", "page.tsx", false⟩ = none ∧
    findStaticRoutes
      [Except.ok ⟨"b", "page.tsx", false⟩,
       Except.ok ⟨"a/_private", "page.tsx", false⟩] =
      findStaticRoutes [Except.ok ⟨"b", "page.tsx", false⟩] := by
  have h := c4_private_segment_disqualifies
    ⟨"a/_private", "page.tsx", false⟩ "_private" (by decide) (by decide)
  exact ⟨h.1, h.2 [Except.ok ⟨"b", "page.tsx", false⟩] []⟩

/-- C5: every emitted route starts with `/`, has no trailing slash unless
it is the root route `/` itself, and an entry all of whose segments are
dropped maps to `/`. -/
theorem c5_routes_canonical (items : List WalkItem) (routes : List String)
    (r : String) (e : WalkEntry)
    (h : findStaticRoutes items = Except.ok routes) (hr : r ∈ routes) :
    strStartsWith r "/" = true ∧
    (r ≠ "/" → strEndsWith r "/" = false) ∧
    (processSegments (entrySegments e) = some [] →
      routeForEntry e = none ∨ routeForEntry e = some "/") := by
  have hmem := collectRoutes_mem items [] routes h r hr
  rcases hmem with habs | ⟨e', he'⟩
  · exact absurd habs (List.not_mem_nil r)
  · have hcanon := routeForEntry_canonical e' r he'
    refine ⟨hcanon.1, hcanon.2, ?_⟩
    intro hempty
    unfold routeForEntry
    by_cases hp : isPageFile e = true
    · rw [if_pos hp, hempty]
      exact Or.inr rfl
    · rw [if_neg hp]
      exact Or.inl rfl

/-- C5 witness at a concrete walk. -/
theorem c5_routes_canonical_witness :
    findStaticRoutes [Except.ok ⟨"a", "page.tsx", false⟩] =
      Except.ok ["/a"] ∧
    strStartsWith "/a" "/" = true ∧
    ("/a" ≠ "/" → strEndsWith "/a" "/" = false) ∧
    (processSegments (entrySegments ⟨"(m)", "page.tsx", false⟩) = some [] →
      routeForEntry ⟨"(m)", "page.tsx", false⟩ = none ∨
      routeForEntry ⟨"(m)", "page.tsx", false⟩ = some "/") := by
  refine ⟨rfl, ?_⟩
  exact c5_routes_canonical [Except.ok ⟨"a", "page.tsx", false⟩] ["/a"] "/a"
    ⟨"(m)", "page.tsx", false⟩ rfl (by decide)

/-- C6: the warm-up driver requests exactly the sorted route list in order,
the sorted list is a permutation of the discovered one (every route exactly
once), and it is ascending in route string length. -/
theorem c6_warmup_visits_sorted (outcome : String → Except String Nat)
    (routes : List String) :
    requestedUrls (warmupAll outcome (sortRoutes routes)) =
      (sortRoutes routes).map (fun r => baseURL ++ r) ∧
    (sortRoutes routes).Perm routes ∧
    (sortRoutes routes).Sorted (fun a b => a.length ≤ b.length) :=
  ⟨requestedUrls_warmupAll outcome (sortRoutes routes),
   sortRoutes_perm routes, sortRoutes_sorted routes⟩

/-- C7: a failed request produces an error line followed by the fixed
sleep, the loop still requests every route of the list, and one sleep
happens per request, success or failure alike. -/
theorem c7_failure_continues (outcome : String → Except String Nat)
    (routes : List String) (route : String) (msg : String)
    (hmem : route ∈ routes)
    (hfail : outcome (baseURL ++ route) = Except.error msg) :
    warmupRoute outcome route =
      [WarmupEvent.request (baseURL ++ route), WarmupEvent.failure msg,
       WarmupEvent.sleep] ∧
    requestedUrls (warmupAll outcome routes) =
      routes.map (fun r => baseURL ++ r) ∧
    sleepCount (warmupAll outcome routes) = routes.length := by
  refine ⟨?_, requestedUrls_warmupAll outcome routes,
    sleepCount_warmupAll outcome routes⟩
  simp [warmupRoute, hfail]

/-- An outcome oracle that refuses one URL and accepts the rest. -/
def badOutcome : String → Except String Nat := fun url =>
  if url == "http://localhost:3000/bad" then
    Except.error "connection refused"
  else Except.ok 200

/-- C7 witness: one route fails, every route is still requested and slept
after. -/
theorem c7_failure_continues_witness :
    warmupRoute badOutcome "/bad" =
      [WarmupEvent.request (baseURL ++ "/bad"),
       WarmupEvent.failure "connection refused", WarmupEvent.sleep] ∧
    requestedUrls (warmupAll badOutcome ["/bad", "/ok"]) =
      ["/bad", "/ok"].map (fun r => baseURL ++ r) ∧
    sleepCount (warmupAll badOutcome ["/bad", "/ok"]) =
      (["/bad", "/ok"] : List String).length :=
  c7_failure_continues badOutcome ["/bad", "/ok"] "/bad" "connection refused"
    (by decide) rfl

/-- C8: a traversal error anywhere in the walk makes discovery return an
error, the run ends fatally with that error, and no warm-up events (hence
no requests) are produced. -/
theorem c8_traversal_error_fatal (outcome : String → Except String Nat)
    (pre post : List WalkItem) (msg : String) :
    ∃ m, findStaticRoutes (pre ++ Except.error msg :: post) =
        Except.error m ∧
      runMain outcome (pre ++ Except.error msg :: post) =
        RunResult.fatal m ∧
      ∀ events, runMain outcome (pre ++ Except.error msg :: post) ≠
        RunResult.completed events := by
  obtain ⟨m, hm⟩ := collectRoutes_error pre post msg []
  have hfs : findStaticRoutes (pre ++ Except.error msg :: post) =
      Except.error m := hm
  refine ⟨m, hfs, ?_, ?_⟩
  · unfold runMain
    rw [hfs]
  · intro events
    unfold runMain
    rw [hfs]
    simp

/-- C8 witness at a concrete failing walk. -/
theorem c8_traversal_error_fatal_witness :
    ∃ m, findStaticRoutes
        ([Except.ok ⟨"a", "page.tsx", false⟩] ++
          Except.error "permission denied" :: []) = Except.error m ∧
      runMain (fun _ => Except.ok 200)
        ([Except.ok ⟨"a", "page.tsx", false⟩] ++
          Except.error "permission denied" :: []) = RunResult.fatal m ∧
      ∀ events, runMain (fun _ => Except.ok 200)
        ([Except.ok ⟨"a", "page.tsx", false⟩] ++
          Except.error "permission denied" :: []) ≠
        RunResult.completed events :=
  c8_traversal_error_fatal (fun _ => Except.ok 200)
    [Except.ok ⟨"a", "page.tsx", false⟩] [] "permission denied"

/-- C9: a segment that begins with an interceptor marker but does not end
with `)` passes every disqualifying and dropping test, is kept as a plain
segment, and appears verbatim in the emitted route. -/
theorem c9_open_interceptor_prefix_kept (s : String) (rest : List String)
    (h1 : (strStartsWith s "(.)" || strStartsWith s "(..)" ||
      strStartsWith s "(...)") = true)
    (h2 : strEndsWith s ")" = false) :
    processSegments (s :: rest) =
      (processSegments rest).map (fun out => s :: out) ∧
    routeForEntry ⟨"feed/(.)photo", "page.tsx", false⟩ =
      some "/feed/(.)photo" := by
  refine ⟨?_, rfl⟩
  have hparen : ∃ t, s.data = '(' :: t := by
    simp only [Bool.or_eq_true] at h1
    rcases h1 with (h | h) | h <;>
      · obtain ⟨t, ht⟩ := data_of_strStartsWith s _ h
        exact ⟨_, ht.trans rfl⟩
  obtain ⟨t, ht⟩ := hparen
  have h0 : (s == "") = false := by
    refine beq_eq_false_iff_ne.mpr ?_
    intro hc
    rw [hc] at ht
    exact absurd (congrArg List.length ht) (by simp)
  have hu : strStartsWith s "_" = false := by
    unfold strStartsWith
    rw [ht]
    simp [List.isPrefixOf]
  have hg : isGroupSegment s = false := by
    unfold isGroupSegment
    rw [h2]
    simp
  have hi : isInterceptorMarker s = false := by
    have n1 : (s == "(.)") = false := by
      refine beq_eq_false_iff_ne.mpr ?_
      intro hc; rw [hc] at h2; exact absurd h2 (by decide)
    have n2 : (s == "(..)") = false := by
      refine beq_eq_false_iff_ne.mpr ?_
      intro hc; rw [hc] at h2; exact absurd h2 (by decide)
    have n3 : (s == "(...)") = false := by
      refine beq_eq_false_iff_ne.mpr ?_
      intro hc; rw [hc] at h2; exact absurd h2 (by decide)
    unfold isInterceptorMarker
    rw [n1, n2, n3]
    rfl
  have ha : strStartsWith s "@" = false := by
    unfold strStartsWith
    rw [ht]
    simp [List.isPrefixOf]
  have hb : strStartsWith s "[" = false := by
    unfold strStartsWith
    rw [ht]
    simp [List.isPrefixOf]
  rw [processSegments]
  simp [h0, hu, hg, hi, ha, hb]

/-- C9 witness: `(.)photo` begins with the marker `(.)`, does not end with
a closing parenthesis, and is kept. -/
theorem c9_open_interceptor_prefix_kept_witness :
    processSegments ["(.)photo"] =
      (processSegments []).map (fun out => "(.)photo" :: out) ∧
    routeForEntry ⟨"feed/(.)photo", "page.tsx", false⟩ =
      some "/feed/(.)photo" :=
  c9_open_interceptor_prefix_kept "(.)photo" [] (by decide) (by decide)

/-- C10: whenever an entry named `app` exists — directory or not — the
lookup returns `app`; `src/app` is returned only when no `app` entry
exists at all. -/
theorem c10_app_before_src_app (fs : List (String × Bool)) :
    (∀ b : Bool, ("app", b) ∈ fs → findAppDirectory fs = some "app") ∧
    (findAppDirectory fs = some "src/app" → ∀ b : Bool, ("app", b) ∉ fs) := by
  constructor
  · intro b hmem
    have hstat : statSucceeds fs "app" = true := by
      unfold statSucceeds
      exact List.any_eq_true.mpr ⟨("app", b), hmem, by simp⟩
    unfold findAppDirectory possibleAppDirs
    rw [List.find?_cons_of_pos _ hstat]
  · intro hfind b hmem
    have hstat : statSucceeds fs "app" = true := by
      unfold statSucceeds
      exact List.any_eq_true.mpr ⟨("app", b), hmem, by simp⟩
    unfold findAppDirectory possibleAppDirs at hfind
    rw [List.find?_cons_of_pos _ hstat] at hfind
    simp at hfind

/-- C10 witness: `app` exists as a plain file and `src/app` as a
directory; `app` is still selected. -/
theorem c10_app_before_src_app_witness :
    findAppDirectory [("app", false), ("src/app", true)] = some "app" :=
  (c10_app_before_src_app [("app", false), ("src/app", true)]).1 false
    (by decide)
